import Mathlib

/-! Shallow embedding of the storage/query layer of `src/src/services/storage.ts`
(class `StorageService`) of the quote-keeping application, together with the
`categories` schema of `src/server.ts` where the remote backend's behaviour
depends on it.

Modelling conventions:
* JavaScript numbers are rationals (`ℚ`); the exact decimal constants of the
  source (`0.7`, `0.1`, `0.05`) are the rationals `7/10`, `1/10`, `5/100`.
* ISO-8601 timestamp strings, which the source only ever compares through
  `new Date(...).getTime()` or SQL timestamp arithmetic, are rational epoch
  milliseconds; the JS-falsy empty string corresponds to the falsy number `0`.
* Optional arguments and `Partial<Quote>` fields are `Option`; an absent or
  empty optional string argument is the empty string (both are JS-falsy and
  the source only tests truthiness).
* The Neon branch of each method is embedded as the relational semantics of
  its literal SQL text over a list of rows; `ILIKE '%term%'` for a term
  without wildcard characters is case-insensitive substring containment, and
  `ORDER BY` is realised by a sort consistent with the listed keys. -/

namespace Storage

/-- Record type of `interface Quote` (storage.ts lines 3–14). -/
structure Quote where
  id : Nat
  title : String
  content : String
  author : String
  comment : String
  category : String
  is_pinned : Bool
  confidence : ℚ
  last_accessed_at : ℚ
  created_at : ℚ
deriving Repr, DecidableEq

/-- Record type of `interface Category` (storage.ts lines 16–19). -/
structure Category where
  id : Nat
  name : String
deriving Repr, DecidableEq

/-- Local-backend persisted state: the `"quotes"` and `"categories"`
localStorage collections. -/
structure LocalState where
  quotes : List Quote
  categories : List Category
deriving Repr, DecidableEq

/-- Helper for the JS `String.prototype.includes` embedding: `matchHere l n`
holds when `n` is an initial segment of `l`. -/
def matchHere : List Char → List Char → Bool
  | _, [] => true
  | [], _ :: _ => false
  | c :: cs, d :: ds => c == d && matchHere cs ds

/-- Embedding of JS `hay.includes(needle)`: some suffix of `hay` starts with
`needle`. -/
def includes : List Char → List Char → Bool
  | [], needle => matchHere [] needle
  | c :: t, needle => matchHere (c :: t) needle || includes t needle

/-- Embedding of JS `s.toLowerCase()` as a character list (per-character
lowercasing). -/
def lowerStr (s : String) : List Char := s.toList.map Char.toLower

/-- Embedding of the JS test `hay.toLowerCase().includes(needle.toLowerCase())`
used by the local search filter (storage.ts line 146). -/
def containsLower (hay needle : String) : Bool := includes (lowerStr hay) (lowerStr needle)

/-- SQL `field ILIKE '%term%'` for a term without wildcard characters
(storage.ts lines 122 and 127): case-insensitive substring containment. -/
def ilike (field term : String) : Bool := containsLower field term

/-- Specification-level predicate "`term` occurs in `hay` as a case-insensitive
substring". -/
def containsCI (hay term : String) : Prop :=
  ∃ s t, lowerStr hay = s ++ lowerStr term ++ t

lemma matchHere_iff (n l : List Char) : matchHere l n = true ↔ ∃ t, l = n ++ t := by
  induction n generalizing l with
  | nil => simp [matchHere]
  | cons d ds ih =>
    cases l with
    | nil => simp [matchHere]
    | cons c cs =>
      simp only [matchHere, Bool.and_eq_true, beq_iff_eq, ih, List.cons_append,
        List.cons.injEq]
      constructor
      · rintro ⟨hcd, t, ht⟩; exact ⟨t, hcd, ht⟩
      · rintro ⟨t, hcd, ht⟩; exact ⟨hcd, t, ht⟩

lemma includes_iff (n l : List Char) : includes l n = true ↔ ∃ s t, l = s ++ n ++ t := by
  induction l with
  | nil =>
    simp only [includes, matchHere_iff]
    constructor
    · rintro ⟨t, ht⟩; exact ⟨[], t, ht⟩
    · rintro ⟨s, t, ht⟩
      rcases List.append_eq_nil.mp (List.append_eq_nil.mp ht.symm).1 with ⟨hs, hn⟩
      exact ⟨[], by simp [hn]⟩
  | cons c cs ih =>
    simp only [includes, Bool.or_eq_true, matchHere_iff, ih]
    constructor
    · rintro (⟨t, ht⟩ | ⟨s, t, ht⟩)
      · exact ⟨[], t, by simp [ht]⟩
      · exact ⟨c :: s, t, by simp [ht]⟩
    · rintro ⟨s, t, ht⟩
      cases s with
      | nil => exact Or.inl ⟨t, by simpa using ht⟩
      | cons x xs =>
        simp only [List.cons_append, List.cons.injEq] at ht
        exact Or.inr ⟨xs, t, ht.2⟩

lemma containsLower_iff (hay needle : String) :
    containsLower hay needle = true ↔ containsCI hay needle := by
  unfold containsLower containsCI
  exact includes_iff _ _

/-- Sort comparator of `getLocalQuotes` (storage.ts lines 148–152), read as the
boolean relation "`a` sorts at or before `b`": the JS comparator returns a
non-positive number exactly when this is `true`. -/
def quoteLE (a b : Quote) : Bool :=
  if a.is_pinned ≠ b.is_pinned then a.is_pinned
  else if a.confidence ≠ b.confidence then decide (b.confidence < a.confidence)
  else decide (b.created_at ≤ a.created_at)

/-- Rank used to state the pin ordering: pinned quotes rank 0, unpinned 1. -/
def pinRank (q : Quote) : Nat := if q.is_pinned then 0 else 1

lemma quoteLE_iff (a b : Quote) : quoteLE a b = true ↔
    pinRank a < pinRank b ∨
      (pinRank a = pinRank b ∧ b.confidence < a.confidence) ∨
        (pinRank a = pinRank b ∧ a.confidence = b.confidence ∧
          b.created_at ≤ a.created_at) := by
  unfold quoteLE pinRank
  by_cases hc : a.confidence = b.confidence <;>
    cases ha : a.is_pinned <;> cases hb : b.is_pinned <;>
      simp [ha, hb, hc]

lemma quoteLE_total (a b : Quote) : (quoteLE a b || quoteLE b a) = true := by
  rw [Bool.or_eq_true, quoteLE_iff, quoteLE_iff]
  rcases Nat.lt_trichotomy (pinRank a) (pinRank b) with h | h | h
  · exact Or.inl (Or.inl h)
  · rcases lt_trichotomy a.confidence b.confidence with hc | hc | hc
    · exact Or.inr (Or.inr (Or.inl ⟨h.symm, hc⟩))
    · rcases le_total b.created_at a.created_at with ht | ht
      · exact Or.inl (Or.inr (Or.inr ⟨h, hc, ht⟩))
      · exact Or.inr (Or.inr (Or.inr ⟨h.symm, hc.symm, ht⟩))
    · exact Or.inl (Or.inr (Or.inl ⟨h, hc⟩))
  · exact Or.inr (Or.inl h)

lemma quoteLE_trans (a b c : Quote) (h1 : quoteLE a b = true)
    (h2 : quoteLE b c = true) : quoteLE a c = true := by
  rw [quoteLE_iff] at h1 h2 ⊢
  rcases h1 with h1 | ⟨e1, h1⟩ | ⟨e1, f1, h1⟩ <;>
    rcases h2 with h2 | ⟨e2, h2⟩ | ⟨e2, f2, h2⟩
  · exact Or.inl (h1.trans h2)
  · exact Or.inl (by omega)
  · exact Or.inl (by omega)
  · exact Or.inl (by omega)
  · exact Or.inr (Or.inl ⟨e1.trans e2, h2.trans h1⟩)
  · exact Or.inr (Or.inl ⟨e1.trans e2, f2 ▸ h1⟩)
  · exact Or.inl (by omega)
  · exact Or.inr (Or.inl ⟨e1.trans e2, f1 ▸ h2⟩)
  · exact Or.inr (Or.inr ⟨e1.trans e2, f1.trans f2, h2.trans h1⟩)

/-- Specification-level ordering of claim C2: pinned before unpinned; for equal
pin status, higher confidence first; for equal confidence, newer `created_at`
first. -/
def quotePrecedes (a b : Quote) : Prop :=
  (b.is_pinned = true → a.is_pinned = true) ∧
  (a.is_pinned = b.is_pinned → b.confidence ≤ a.confidence) ∧
  (a.is_pinned = b.is_pinned → a.confidence = b.confidence →
    b.created_at ≤ a.created_at)

lemma quotePrecedes_of_le (a b : Quote) (h : quoteLE a b = true) :
    quotePrecedes a b := by
  rw [quoteLE_iff] at h
  unfold pinRank at h
  unfold quotePrecedes
  cases ha : a.is_pinned <;> cases hb : b.is_pinned <;>
    simp [ha, hb] at h ⊢ <;>
    · rcases h with h | ⟨h1, h2⟩
      · exact ⟨le_of_lt h, fun he => absurd he (ne_of_gt h)⟩
      · exact ⟨le_of_eq h1.symm, fun _ => h2⟩

/-- Embedding of `getLocalQuotes(category?, search?)` (storage.ts lines
140–153): category filter, then search filter over the lowercased `title`,
`content` and `author` fields, then the comparator sort. -/
def getLocalQuotes (quotes : List Quote) (category : String) (search : String) :
    List Quote :=
  let q1 := if category ≠ "" ∧ category ≠ "全部"
    then quotes.filter (fun q => q.category == category) else quotes
  let q2 := if search ≠ ""
    then q1.filter (fun q =>
      containsLower q.title search || containsLower q.content search ||
      containsLower q.author search)
    else q1
  q2.mergeSort quoteLE

/-- Embedding of the Neon branch of `getQuotes` (storage.ts lines 117–131): the
four query shapes collapse to the category restriction AND the search
restriction (`ILIKE` over `title`, `content`, `author`, `comment`), ordered by
`is_pinned DESC, confidence DESC, created_at DESC`. -/
def getQuotesNeon (quotes : List Quote) (category : String) (search : String) :
    List Quote :=
  let q1 := if category ≠ "" ∧ category ≠ "全部"
    then quotes.filter (fun q => q.category == category) else quotes
  let q2 := if search ≠ ""
    then q1.filter (fun q =>
      ilike q.title search || ilike q.content search ||
      ilike q.author search || ilike q.comment search)
    else q1
  q2.mergeSort quoteLE

/-- Dispatcher `getQuotes` (storage.ts lines 116–138): the Neon branch when
`this.sql` is set, the local branch otherwise. -/
def getQuotes (usingNeon : Bool) (quotes : List Quote) (category : String)
    (search : String) : List Quote :=
  if usingNeon then getQuotesNeon quotes category search
  else getLocalQuotes quotes category search

lemma getLocalQuotes_nil_filters (quotes : List Quote) :
    getLocalQuotes quotes "" "" = quotes.mergeSort quoteLE := rfl

lemma getQuotesNeon_nil_filters (quotes : List Quote) :
    getQuotesNeon quotes "" "" = quotes.mergeSort quoteLE := rfl

lemma getLocalQuotes_singleton (q : Quote) : getLocalQuotes [q] "" "" = [q] := by
  rw [getLocalQuotes_nil_filters]; exact List.mergeSort_singleton q

lemma getLocalQuotes_nil : getLocalQuotes [] "" "" = [] := by
  rw [getLocalQuotes_nil_filters]; exact List.mergeSort_nil

lemma getLocalQuotes_perm (quotes : List Quote) :
    (getLocalQuotes quotes "" "").Perm quotes := by
  rw [getLocalQuotes_nil_filters]; exact List.mergeSort_perm quotes quoteLE

lemma mem_getLocalQuotes (quotes : List Quote) (q : Quote) :
    q ∈ getLocalQuotes quotes "" "" ↔ q ∈ quotes :=
  (getLocalQuotes_perm quotes).mem_iff

/-- C2: with no category filter and no search term, `listQuotes` (on either
backend) returns all stored quotes, ordered by `is_pinned` descending, then
`confidence` descending, then `created_at` descending, with ties broken in
exactly this precedence. -/
theorem listQuotes_noFilter_ordering (usingNeon : Bool) (quotes : List Quote) :
    (getQuotes usingNeon quotes "" "").Perm quotes ∧
    List.Pairwise quotePrecedes (getQuotes usingNeon quotes "" "") := by
  have h : getQuotes usingNeon quotes "" "" = quotes.mergeSort quoteLE := by
    cases usingNeon <;> rfl
  rw [h]
  exact ⟨List.mergeSort_perm quotes quoteLE,
    (List.sorted_mergeSort quoteLE_trans quoteLE_total quotes).imp
      (fun hab => quotePrecedes_of_le _ _ hab)⟩

/-- C3 (amended): for a non-empty search term and no category filter, the local
backend returns exactly the quotes where `title`, `content` or `author`
contains the term as a case-insensitive substring — the `comment` field is not
searched locally — while the Neon backend additionally searches `comment`. -/
theorem search_filter_fields (quotes : List Quote) (term : String) (q : Quote)
    (h : term ≠ "") :
    (q ∈ getLocalQuotes quotes "" term ↔
      q ∈ quotes ∧ (containsCI q.title term ∨ containsCI q.content term ∨
        containsCI q.author term)) ∧
    (q ∈ getQuotesNeon quotes "" term ↔
      q ∈ quotes ∧ (containsCI q.title term ∨ containsCI q.content term ∨
        containsCI q.author term ∨ containsCI q.comment term)) := by
  have hcat : ¬(("" : String) ≠ "" ∧ ("" : String) ≠ "全部") := fun hh => hh.1 rfl
  have hL : getLocalQuotes quotes "" term =
      (quotes.filter (fun q =>
        containsLower q.title term || containsLower q.content term ||
        containsLower q.author term)).mergeSort quoteLE := by
    unfold getLocalQuotes
    simp only [if_neg hcat, if_pos h]
  have hN : getQuotesNeon quotes "" term =
      (quotes.filter (fun q =>
        ilike q.title term || ilike q.content term ||
        ilike q.author term || ilike q.comment term)).mergeSort quoteLE := by
    unfold getQuotesNeon
    simp only [if_neg hcat, if_pos h]
  constructor
  · rw [hL, (List.mergeSort_perm _ quoteLE).mem_iff, List.mem_filter]
    simp only [Bool.or_eq_true, containsLower_iff, or_assoc]
  · rw [hN, (List.mergeSort_perm _ quoteLE).mem_iff, List.mem_filter]
    simp only [Bool.or_eq_true, ilike, containsLower_iff, or_assoc]

/-- Quote whose search term `"zebra"` occurs only in the `comment` field. -/
def commentQuote : Quote :=
  { id := 1, title := "t", content := "c", author := "a", comment := "zebra",
    category := "未分类", is_pinned := false, confidence := 7/10,
    last_accessed_at := 0, created_at := 0 }

/-- C3 counterexample: a quote matched only through `comment` must, per the
claim, be returned by both backends; the local backend misses it while the
Neon backend finds it. -/
theorem search_comment_counterexample :
    getLocalQuotes [commentQuote] "" "zebra" = [] ∧
    getQuotesNeon [commentQuote] "" "zebra" = [commentQuote] := by
  have hcat : ¬(("" : String) ≠ "" ∧ ("" : String) ≠ "全部") := fun hh => hh.1 rfl
  have hz : ("zebra" : String) ≠ "" := by decide
  have h1 : List.filter (fun q =>
      containsLower q.title "zebra" || containsLower q.content "zebra" ||
      containsLower q.author "zebra") [commentQuote] = [] := rfl
  have h2 : List.filter (fun q =>
      ilike q.title "zebra" || ilike q.content "zebra" ||
      ilike q.author "zebra" || ilike q.comment "zebra") [commentQuote] =
      [commentQuote] := rfl
  constructor
  · unfold getLocalQuotes
    simp only [if_neg hcat, if_pos hz, h1]
    exact List.mergeSort_nil
  · unfold getQuotesNeon
    simp only [if_neg hcat, if_pos hz, h2]
    exact List.mergeSort_singleton commentQuote

/-- Quote of the specification's search example, `content = "The Quiet Mind"`. -/
def quietQuote : Quote :=
  { id := 1, title := "", content := "The Quiet Mind", author := "",
    comment := "", category := "未分类", is_pinned := false, confidence := 7/10,
    last_accessed_at := 0, created_at := 0 }

/-- Witness for C3's theorem: the quote with content "The Quiet Mind" is found
by the local search for "quiet". -/
theorem search_filter_fields_witness :
    quietQuote ∈ getLocalQuotes [quietQuote] "" "quiet" :=
  ((search_filter_fields [quietQuote] "quiet" quietQuote (by decide)).1).mpr
    ⟨List.mem_singleton.mpr rfl,
     Or.inr (Or.inl ⟨"the ".toList, " mind".toList, by decide⟩)⟩

/-- Draft argument of `addQuote` (storage.ts line 155), i.e.
`Omit<Quote, 'id' | 'created_at' | 'confidence' | 'last_accessed_at'>`. -/
structure QuoteDraft where
  title : String
  content : String
  author : String
  comment : String
  category : String
  is_pinned : Bool
deriving Repr, DecidableEq

/-- Embedding of the local branch of `addQuote` (storage.ts lines 165–169):
read (and thereby sort) the stored quotes, append the new record with
`id = Date.now()` (`newId`), `confidence = 0.7` and both timestamps `now`;
returns the stored list and the new record. -/
def addQuote (quotes : List Quote) (newId : Nat) (now : ℚ) (d : QuoteDraft) :
    List Quote × Quote :=
  let newQ : Quote :=
    { id := newId, title := d.title, content := d.content, author := d.author,
      comment := d.comment, category := d.category, is_pinned := d.is_pinned,
      confidence := 7/10, last_accessed_at := now, created_at := now }
  (getLocalQuotes quotes "" "" ++ [newQ], newQ)

/-- Field-wise `Partial<Quote>` (argument of `updateQuote`). -/
structure QuotePatch where
  id : Option Nat := none
  title : Option String := none
  content : Option String := none
  author : Option String := none
  comment : Option String := none
  category : Option String := none
  is_pinned : Option Bool := none
  confidence : Option ℚ := none
  last_accessed_at : Option ℚ := none
  created_at : Option ℚ := none
deriving Repr, DecidableEq

/-- JS object spread `{ ...q, ...p }` (storage.ts lines 175 and 189): fields
present in the patch win, absent fields keep the record's value. -/
def applyPatch (q : Quote) (p : QuotePatch) : Quote :=
  { id := p.id.getD q.id
    title := p.title.getD q.title
    content := p.content.getD q.content
    author := p.author.getD q.author
    comment := p.comment.getD q.comment
    category := p.category.getD q.category
    is_pinned := p.is_pinned.getD q.is_pinned
    confidence := p.confidence.getD q.confidence
    last_accessed_at := p.last_accessed_at.getD q.last_accessed_at
    created_at := p.created_at.getD q.created_at }

/-- Embedding of the local branch of `updateQuote` (storage.ts lines 186–193):
find the first stored quote with the id, replace it by the spread-merge, and
return the stored list and merged record; throw `'Not found'` otherwise. The
inner `none` arm is dead code (`findIdx?` only returns in-range indices). -/
def updateQuote (quotes : List Quote) (id : Nat) (p : QuotePatch) :
    Except String (List Quote × Quote) :=
  let qs := getLocalQuotes quotes "" ""
  match qs.findIdx? (fun q => q.id == id) with
  | some i =>
    match qs[i]? with
    | some q => .ok (qs.set i (applyPatch q p), applyPatch q p)
    | none => .error "Not found"
  | none => .error "Not found"

/-- Embedding of the Neon branch of `updateQuote` (storage.ts lines 173–184):
`SELECT` the first row with the id, spread-merge the patch onto it, `UPDATE`
every column except `id` and `created_at` on the rows matching the id, and
return the first updated row — `none` (JS `undefined`) when no row matched; no
error is raised on a missing id. -/
def updateQuoteNeon (table : List Quote) (id : Nat) (p : QuotePatch) :
    List Quote × Option Quote :=
  match table.find? (fun q => q.id == id) with
  | some ex =>
    let u := applyPatch ex p
    let table1 := table.map (fun q => if q.id == id then
      { q with
        title := u.title, content := u.content, author := u.author,
        comment := u.comment, category := u.category, is_pinned := u.is_pinned,
        confidence := u.confidence, last_accessed_at := u.last_accessed_at }
      else q)
    (table1, table1.find? (fun q => q.id == id))
  | none => (table, none)

/-- Embedding of the local branch of `deleteQuote` (storage.ts lines 201–203). -/
def deleteQuote (quotes : List Quote) (id : Nat) : List Quote :=
  (getLocalQuotes quotes "" "").filter (fun q => q.id != id)

/-- Per-row update of `boostKnowledge` (storage.ts lines 212–213 and 220–221):
`confidence = min(1.0, confidence + 0.1)`, `last_accessed_at = now`. -/
def boostUpd (now : ℚ) (q : Quote) : Quote :=
  { q with confidence := min 1 (q.confidence + 1/10), last_accessed_at := now }

/-- Embedding of the local branch of `boostKnowledge` (storage.ts lines
216–224): the first stored quote with the id is boosted in place; nothing is
stored when the id is absent. The inner `none` arm is dead code (`findIdx?`
only returns in-range indices). -/
def boostKnowledge (now : ℚ) (id : Nat) (quotes : List Quote) : List Quote :=
  let qs := getLocalQuotes quotes "" ""
  match qs.findIdx? (fun q => q.id == id) with
  | some i =>
    match qs[i]? with
    | some q => qs.set i (boostUpd now q)
    | none => quotes
  | none => quotes

/-- Embedding of the Neon branch of `boostKnowledge` (storage.ts lines
210–215): `UPDATE ... WHERE id = id` boosts every row whose id matches. -/
def boostKnowledgeNeon (now : ℚ) (id : Nat) (table : List Quote) : List Quote :=
  table.map (fun q => if q.id == id then boostUpd now q else q)

/-- Milliseconds per day, the source's `1000 * 3600 * 24` (storage.ts line 240). -/
def msPerDay : ℚ := 1000 * 3600 * 24

/-- Per-quote step of the local `decayKnowledge` branch (storage.ts lines
238–245): quotes inactive for strictly more than 7 days lose 0.05 confidence,
clamped at 0. -/
def decayStep (now : ℚ) (q : Quote) : Quote :=
  if 7 < (now - q.last_accessed_at) / msPerDay
  then { q with confidence := max 0 (q.confidence - 5/100) } else q

/-- Embedding of the local branch of `decayKnowledge` (storage.ts lines
236–246): read (and thereby sort) the stored quotes and apply the decay step
to every quote once. -/
def decayKnowledge (now : ℚ) (quotes : List Quote) : List Quote :=
  (getLocalQuotes quotes "" "").map (decayStep now)

/-- Embedding of the Neon branch of `decayKnowledge` (storage.ts lines
231–235): `EXTRACT(EPOCH FROM (now - last_accessed_at)) / 86400 > 7` (epoch
seconds over 86400 days), same clamped decrement. -/
def decayKnowledgeNeon (now : ℚ) (table : List Quote) : List Quote :=
  table.map (fun q =>
    if 7 < ((now - q.last_accessed_at) / 1000) / 86400
    then { q with confidence := max 0 (q.confidence - 5/100) } else q)

/-- Embedding of the local branch of `addCategory` (storage.ts lines 87–91):
unconditional append of `{ id: Date.now(), name }`; no emptiness or
uniqueness check of any kind. -/
def addCategory (st : LocalState) (newId : Nat) (name : String) :
    LocalState × Category :=
  let c : Category := { id := newId, name := name }
  ({ st with categories := st.categories ++ [c] }, c)

/-- Embedding of the Neon branch of `addCategory` (storage.ts line 84)
together with the `name TEXT NOT NULL UNIQUE` constraint of the `categories`
schema (src/server.ts): the INSERT raises on a duplicate name and succeeds
otherwise (an empty name is a valid TEXT value, so it is accepted). -/
def addCategoryNeon (table : List Category) (newId : Nat) (name : String) :
    Except String (List Category × Category) :=
  if table.any (fun c => c.name == name)
  then .error "duplicate key value violates unique constraint"
  else
    let c : Category := { id := newId, name := name }
    .ok (table ++ [c], c)

/-- Embedding of the local branch of `deleteCategory` (storage.ts lines
104–112): when a category with the id exists, remove it from the list and
reassign every quote bearing its name to `未分类` (the quote list passes
through the sorting read `getQuotes()`); otherwise do nothing. -/
def deleteCategory (st : LocalState) (id : Nat) : LocalState :=
  match st.categories.find? (fun c => c.id == id) with
  | none => st
  | some cat =>
    { categories := st.categories.filter (fun c => c.id != id)
      quotes := (getLocalQuotes st.quotes "" "").map (fun q =>
        if q.category == cat.name then { q with category := "未分类" } else q) }

/-- Embedding of the Neon branch of `deleteCategory` (storage.ts lines
95–102): `SELECT name` by id; when a row exists, reassign the quotes with that
category name to `未分类`, then delete the category rows with the id. -/
def deleteCategoryNeon (qtable : List Quote) (ctable : List Category)
    (id : Nat) : List Quote × List Category :=
  match ctable.find? (fun c => c.id == id) with
  | none => (qtable, ctable)
  | some cat =>
    (qtable.map (fun q =>
      if q.category == cat.name then { q with category := "未分类" } else q),
     ctable.filter (fun c => c.id != id))

/-- Raw quote record of an import snapshot: `confidence` and
`last_accessed_at` may be absent (`undefined`), which the Neon import
defaults. -/
structure ImportQuote where
  id : Nat
  title : String
  content : String
  author : String
  comment : String
  category : String
  is_pinned : Bool
  confidence : Option ℚ
  last_accessed_at : Option ℚ
  created_at : ℚ
deriving Repr, DecidableEq

/-- Parsed snapshot for the Neon path of `importData`; `none` is an absent
(JS-falsy) `quotes` or `categories` key. -/
structure Snapshot where
  quotes : Option (List ImportQuote)
  categories : Option (List Category)
deriving Repr, DecidableEq

/-- Row built by the Neon import INSERT (storage.ts line 275): the JS test
`q.confidence || 0.7` treats the falsy number `0` like an absent field, and
`q.last_accessed_at || q.created_at` does the same for the falsy timestamp
(`0` in this model, the empty string in JS). -/
def importedRow (q : ImportQuote) : Quote :=
  { id := q.id, title := q.title, content := q.content, author := q.author,
    comment := q.comment, category := q.category, is_pinned := q.is_pinned,
    confidence := match q.confidence with
      | none => 7/10
      | some c => if c = 0 then 7/10 else c
    last_accessed_at := match q.last_accessed_at with
      | none => q.created_at
      | some t => if t = 0 then q.created_at else t
    created_at := q.created_at }

/-- Single `INSERT ... ON CONFLICT (id) DO UPDATE` of the Neon import
(storage.ts lines 273–280): a conflicting row with the same id gets every
column except `id` and `created_at` overwritten by the incoming row;
otherwise the incoming row is appended as supplied. -/
def importUpsertQuote (table : List Quote) (q : ImportQuote) : List Quote :=
  let row := importedRow q
  if table.any (fun r => r.id == q.id) then
    table.map (fun r => if r.id == q.id then
      { r with
        title := row.title, content := row.content,
        author := row.author, comment := row.comment,
        category := row.category, is_pinned := row.is_pinned,
        confidence := row.confidence,
        last_accessed_at := row.last_accessed_at }
      else r)
  else table ++ [row]

/-- Single `INSERT ... ON CONFLICT (id) DO UPDATE SET name = EXCLUDED.name` of
the Neon import (storage.ts line 268). -/
def importUpsertCategory (table : List Category) (c : Category) :
    List Category :=
  if table.any (fun r => r.id == c.id) then
    table.map (fun r => if r.id == c.id then { r with name := c.name } else r)
  else table ++ [c]

/-- Embedding of the Neon branch of `importData` (storage.ts lines 257–281):
format check, `DELETE FROM quotes` and `DELETE FROM categories` (so the folds
start from the empty table), then upsert every snapshot record. -/
def importDataNeon (qtable : List Quote) (ctable : List Category)
    (d : Snapshot) : Except String (List Quote × List Category) :=
  match d.quotes, d.categories with
  | some iqs, some ics =>
    .ok (iqs.foldl importUpsertQuote [], ics.foldl importUpsertCategory [])
  | _, _ => .error "Invalid data format"

/-- Parsed snapshot for the local path of `importData`, which stores the
snapshot's collections verbatim (its quote records are full `Quote`s here). -/
structure SnapshotL where
  quotes : Option (List Quote)
  categories : Option (List Category)
deriving Repr, DecidableEq

/-- Embedding of the local branch of `importData` (storage.ts lines 257–259
and 282–285): format check, then both stored collections are overwritten with
the snapshot's collections. -/
def importData (st : LocalState) (d : SnapshotL) : Except String LocalState :=
  match d.quotes, d.categories with
  | some qs, some cs => .ok { quotes := qs, categories := cs }
  | _, _ => .error "Invalid data format"

lemma mem_of_getElemSome {α : Type} {l : List α} {i : ℕ} {a : α}
    (h : l[i]? = some a) : a ∈ l := by
  obtain ⟨hlt, hEq⟩ := List.getElem?_eq_some.mp h
  exact hEq ▸ List.getElem_mem hlt

lemma decayKnowledgeNeon_eq (now : ℚ) (table : List Quote) :
    decayKnowledgeNeon now table = table.map (decayStep now) := by
  unfold decayKnowledgeNeon decayStep
  congr 1
  funext q
  rw [div_div]
  have hms : (1000 : ℚ) * 86400 = msPerDay := by norm_num [msPerDay]
  rw [hms]

/-- C4: a single decay sweep applies, on both backends, exactly one clamped
0.05 decrement to every quote last accessed strictly more than 7 days ago and
leaves every other quote untouched; a quote 10 days stale with confidence 0.5
drops to 0.45, and to 0.40 after a second immediate sweep. -/
theorem decaySweep_spec (now : ℚ) (quotes : List Quote) :
    (decayKnowledge now quotes).Perm (quotes.map (decayStep now)) ∧
    decayKnowledgeNeon now quotes = quotes.map (decayStep now) ∧
    (∀ q : Quote, 7 * msPerDay < now - q.last_accessed_at →
      decayStep now q = { q with confidence := max 0 (q.confidence - 5/100) }) ∧
    (∀ q : Quote, now - q.last_accessed_at ≤ 7 * msPerDay →
      decayStep now q = q) ∧
    (∀ q : Quote, q.confidence = 1/2 →
      q.last_accessed_at = now - 10 * msPerDay →
      decayKnowledge now [q] = [{ q with confidence := 45/100 }] ∧
      decayKnowledge now [{ q with confidence := 45/100 }] =
        [{ q with confidence := 40/100 }]) := by
  have hms : (0 : ℚ) < msPerDay := by norm_num [msPerDay]
  have hstale : ∀ q : Quote, 7 * msPerDay < now - q.last_accessed_at →
      decayStep now q = { q with confidence := max 0 (q.confidence - 5/100) } := by
    intro q h
    unfold decayStep
    rw [if_pos ((lt_div_iff hms).mpr h)]
  have hfresh : ∀ q : Quote, now - q.last_accessed_at ≤ 7 * msPerDay →
      decayStep now q = q := by
    intro q h
    unfold decayStep
    rw [if_neg (not_lt.mpr ((div_le_iff hms).mpr h))]
  refine ⟨(getLocalQuotes_perm quotes).map (decayStep now),
    decayKnowledgeNeon_eq now quotes, hstale, hfresh, ?_⟩
  intro q hconf hlast
  have h10 : 7 * msPerDay < now - (now - 10 * msPerDay) := by
    rw [show now - (now - 10 * msPerDay) = 10 * msPerDay from by ring]
    norm_num [msPerDay]
  constructor
  · show (getLocalQuotes [q] "" "").map (decayStep now) = _
    rw [getLocalQuotes_singleton]
    show [decayStep now q] = _
    rw [hstale q (by rw [hlast]; exact h10)]
    have hmax : max 0 (q.confidence - 5/100) = 45/100 := by
      rw [hconf]; norm_num
    rw [hmax]
  · show (getLocalQuotes [{ q with confidence := 45/100 }] "" "").map
      (decayStep now) = _
    rw [getLocalQuotes_singleton]
    show [decayStep now { q with confidence := 45/100 }] = _
    rw [hstale { q with confidence := 45/100 } (by show 7 * msPerDay < now - q.last_accessed_at; rw [hlast]; exact h10)]
    have hmax : max 0 (({ q with confidence := 45/100 } : Quote).confidence - 5/100) =
        40/100 := by
      show max 0 ((45/100 : ℚ) - 5/100) = 40/100
      norm_num
    rw [hmax]

/-- Concrete quote for the decay witness: confidence 0.5, last accessed at
epoch 0. -/
def decayQuote : Quote :=
  { id := 1, title := "", content := "c", author := "", comment := "",
    category := "未分类", is_pinned := false, confidence := 1/2,
    last_accessed_at := 0, created_at := 0 }

/-- Witness for C4's theorem at a concrete input: a sweep on day 10 drops the
0.5-confidence quote of day 0 to confidence 0.45. -/
theorem decaySweep_spec_witness :
    decayKnowledge (10 * msPerDay) [decayQuote] =
      [{ decayQuote with confidence := 45/100 }] :=
  ((decaySweep_spec (10 * msPerDay) [decayQuote]).2.2.2.2 decayQuote rfl
    (by show (0 : ℚ) = 10 * msPerDay - 10 * msPerDay; ring)).1

lemma boostKnowledge_found (now : ℚ) (id : Nat) (quotes : List Quote)
    (i : Nat) (q : Quote)
    (hidx : (getLocalQuotes quotes "" "").findIdx? (fun r => r.id == id) = some i)
    (hget : (getLocalQuotes quotes "" "")[i]? = some q) :
    boostKnowledge now id quotes =
      (getLocalQuotes quotes "" "").set i (boostUpd now q) := by
  simp only [boostKnowledge, hidx, hget]

lemma boost_singleton (now : ℚ) (id : Nat) (r : Quote) (h : r.id = id) :
    boostKnowledge now id [r] = [boostUpd now r] := by
  have hidx : (getLocalQuotes [r] "" "").findIdx? (fun s => s.id == id) = some 0 := by
    rw [getLocalQuotes_singleton]
    simp [h]
  have hget : (getLocalQuotes [r] "" "")[0]? = some r := by
    rw [getLocalQuotes_singleton]; rfl
  rw [boostKnowledge_found now id [r] 0 r hidx hget, getLocalQuotes_singleton]
  rfl

lemma boost_iterate (now : ℚ) (id : Nat) (n : ℕ) :
    ∀ r : Quote, r.id = id →
      (boostKnowledge now id)^[n + 1] [r] =
        [{ r with
            confidence := (fun c : ℚ => min 1 (c + 1/10))^[n + 1] r.confidence,
            last_accessed_at := now }] := by
  induction n with
  | zero =>
    intro r h
    rw [Function.iterate_one, Function.iterate_one, boost_singleton now id r h]
    rfl
  | succ n ih =>
    intro r h
    have hL : (boostKnowledge now id)^[n + 1 + 1] [r] =
        (boostKnowledge now id)^[n + 1] (boostKnowledge now id [r]) :=
      Function.iterate_succ_apply _ _ _
    have hR : (fun c : ℚ => min 1 (c + 1/10))^[n + 1 + 1] r.confidence =
        (fun c : ℚ => min 1 (c + 1/10))^[n + 1]
          ((fun c : ℚ => min 1 (c + 1/10)) r.confidence) :=
      Function.iterate_succ_apply _ _ _
    rw [hL, boost_singleton now id r h, ih (boostUpd now r) h, hR]
    rfl

lemma confSaturate : (fun c : ℚ => min 1 (c + 1/10))^[20] (7/10 : ℚ) = 1 := by
  have h3 : (fun c : ℚ => min 1 (c + 1/10))^[3] (7/10 : ℚ) = 1 := by
    show min 1 (min 1 (min 1 ((7:ℚ)/10 + 1/10) + 1/10) + 1/10) = 1
    norm_num [min_def]
  have hfix : (fun c : ℚ => min 1 (c + 1/10)) (1 : ℚ) = 1 := by
    show min 1 ((1:ℚ) + 1/10) = 1
    norm_num [min_def]
  have h17 : (fun c : ℚ => min 1 (c + 1/10))^[17] (1 : ℚ) = 1 :=
    @Function.iterate_fixed ℚ (fun c : ℚ => min 1 (c + 1/10)) 1 hfix 17
  rw [show (20 : ℕ) = 17 + 3 from rfl, Function.iterate_add_apply, h3, h17]

/-- C5: boosting an existing id replaces the first stored quote bearing it by
its clamped update — `confidence = min(1, confidence + 0.1)` and
`last_accessed_at = now`; the boosted confidence never exceeds 1, and twenty
consecutive boosts starting from confidence 0.7 yield exactly 1. -/
theorem boost_spec (now : ℚ) (id : Nat) (quotes : List Quote) (i : Nat)
    (q : Quote)
    (hidx : (getLocalQuotes quotes "" "").findIdx? (fun r => r.id == id) = some i)
    (hget : (getLocalQuotes quotes "" "")[i]? = some q) :
    boostKnowledge now id quotes =
      (getLocalQuotes quotes "" "").set i (boostUpd now q) ∧
    (boostUpd now q).confidence = min 1 (q.confidence + 1/10) ∧
    (boostUpd now q).last_accessed_at = now ∧
    (∀ r : Quote, (boostUpd now r).confidence ≤ 1) ∧
    (∀ r : Quote, r.id = id → r.confidence = 7/10 →
      (boostKnowledge now id)^[20] [r] =
        [{ r with confidence := 1, last_accessed_at := now }]) := by
  refine ⟨boostKnowledge_found now id quotes i q hidx hget, rfl, rfl,
    fun r => min_le_left _ _, ?_⟩
  intro r h1 h2
  rw [show (20 : ℕ) = 19 + 1 from rfl, boost_iterate now id 19 r h1, h2,
    show (19 : ℕ) + 1 = 20 from rfl, confSaturate]

/-- Concrete quote for the boost and invariant witnesses: confidence 0.7. -/
def boostQuote : Quote :=
  { id := 1, title := "", content := "c", author := "", comment := "",
    category := "未分类", is_pinned := false, confidence := 7/10,
    last_accessed_at := 0, created_at := 0 }

/-- Witness for C5's theorem at a concrete input. -/
theorem boost_spec_witness :
    boostKnowledge 5 1 [boostQuote] =
      (getLocalQuotes [boostQuote] "" "").set 0 (boostUpd 5 boostQuote) :=
  (boost_spec 5 1 [boostQuote] 0 boostQuote
    (by rw [getLocalQuotes_singleton]; rfl)
    (by rw [getLocalQuotes_singleton]; rfl)).1

lemma mem_boostKnowledge (now : ℚ) (id : Nat) (quotes : List Quote) (q : Quote)
    (hq : q ∈ boostKnowledge now id quotes) :
    q ∈ quotes ∨ ∃ r ∈ quotes, q = boostUpd now r := by
  simp only [boostKnowledge] at hq
  split at hq
  · split at hq
    · rename_i i hfi r hget
      rcases List.mem_or_eq_of_mem_set hq with hmem | rfl
      · exact Or.inl ((mem_getLocalQuotes quotes q).mp hmem)
      · exact Or.inr ⟨r, (mem_getLocalQuotes quotes r).mp
          (mem_of_getElemSome hget), rfl⟩
    · exact Or.inl hq
  · exact Or.inl hq

/-- C1 (amended): the invariant `0 ≤ confidence ≤ 1` is preserved by
`addQuote` (which writes the constant 0.7) and by `boost` and `decaySweep`
(which clamp) on both backends; but `updateQuote` and `importData` write the
supplied confidence unclamped, so they do not enforce the invariant. -/
theorem confidence_invariant (now : ℚ) (id : Nat) (newId : Nat)
    (d : QuoteDraft) (quotes : List Quote)
    (h : ∀ q ∈ quotes, 0 ≤ q.confidence ∧ q.confidence ≤ 1) :
    (∀ q ∈ boostKnowledge now id quotes,
      0 ≤ q.confidence ∧ q.confidence ≤ 1) ∧
    (∀ q ∈ boostKnowledgeNeon now id quotes,
      0 ≤ q.confidence ∧ q.confidence ≤ 1) ∧
    (∀ q ∈ decayKnowledge now quotes,
      0 ≤ q.confidence ∧ q.confidence ≤ 1) ∧
    (∀ q ∈ decayKnowledgeNeon now quotes,
      0 ≤ q.confidence ∧ q.confidence ≤ 1) ∧
    (∀ q ∈ (addQuote quotes newId now d).1,
      0 ≤ q.confidence ∧ q.confidence ≤ 1) := by
  have hboostUpd : ∀ r : Quote, 0 ≤ r.confidence →
      0 ≤ (boostUpd now r).confidence ∧ (boostUpd now r).confidence ≤ 1 := by
    intro r hr
    exact ⟨le_min (by norm_num) (by linarith), min_le_left _ _⟩
  have hdecayStep : ∀ r : Quote, 0 ≤ r.confidence → r.confidence ≤ 1 →
      0 ≤ (decayStep now r).confidence ∧ (decayStep now r).confidence ≤ 1 := by
    intro r h0 h1
    unfold decayStep
    by_cases hc : 7 < (now - r.last_accessed_at) / msPerDay
    · rw [if_pos hc]
      exact ⟨le_max_left _ _, max_le (by norm_num) (by linarith)⟩
    · rw [if_neg hc]
      exact ⟨h0, h1⟩
  refine ⟨?_, ?_, ?_, ?_, ?_⟩
  · intro q hq
    rcases mem_boostKnowledge now id quotes q hq with hmem | ⟨r, hr, rfl⟩
    · exact h q hmem
    · exact hboostUpd r (h r hr).1
  · intro q hq
    rcases List.mem_map.mp hq with ⟨r, hr, hf⟩
    by_cases hid : (r.id == id) = true
    · rw [if_pos hid] at hf
      exact hf ▸ hboostUpd r (h r hr).1
    · rw [if_neg hid] at hf
      exact hf ▸ h r hr
  · intro q hq
    rcases List.mem_map.mp hq with ⟨r, hr, rfl⟩
    have hr2 := h r ((mem_getLocalQuotes quotes r).mp hr)
    exact hdecayStep r hr2.1 hr2.2
  · intro q hq
    rw [decayKnowledgeNeon_eq] at hq
    rcases List.mem_map.mp hq with ⟨r, hr, rfl⟩
    exact hdecayStep r (h r hr).1 (h r hr).2
  · intro q hq
    rcases List.mem_append.mp hq with hmem | hnew
    · exact h q ((mem_getLocalQuotes quotes q).mp hmem)
    · rw [List.mem_singleton] at hnew
      subst hnew
      constructor <;> norm_num

/-- Witness for C1's theorem at a concrete input. -/
theorem confidence_invariant_witness :
    0 ≤ (boostUpd 0 boostQuote).confidence ∧
      (boostUpd 0 boostQuote).confidence ≤ 1 :=
  (confidence_invariant 0 1 2 ⟨"", "c", "", "", "未分类", false⟩ [boostQuote]
    (by
      intro q hq
      rw [List.mem_singleton] at hq
      subst hq
      constructor
      · show (0:ℚ) ≤ 7/10; norm_num
      · show (7:ℚ)/10 ≤ 1; norm_num)).1
    (boostUpd 0 boostQuote)
    (by rw [boost_singleton 0 1 boostQuote rfl]
        exact List.mem_singleton.mpr rfl)

/-- C1 counterexample: `updateQuote` does not clamp — patching the confidence
of an in-range stored quote to 1.5 stores 1.5, violating `confidence ≤ 1`
right after a confidence-mutating operation. -/
theorem confidence_clamp_counterexample :
    updateQuote [boostQuote] 1 { confidence := some (3/2) } =
      .ok ([{ boostQuote with confidence := 3/2 }],
        { boostQuote with confidence := 3/2 }) ∧
    ¬ ({ boostQuote with confidence := 3/2 } : Quote).confidence ≤ 1 := by
  constructor
  · simp only [updateQuote, getLocalQuotes_singleton]
    rfl
  · show ¬ (3/2 : ℚ) ≤ 1
    norm_num

lemma findIdxOpt_none_of_no_id (qs : List Quote) (id : Nat)
    (h : ∀ r ∈ qs, r.id ≠ id) :
    qs.findIdx? (fun r => r.id == id) = none :=
  List.findIdx?_eq_none_iff.mpr (fun r hr => by simp [h r hr])

/-- C8 (amended): the local `updateQuote` merges the patch onto the stored
record (absent fields keep their previous value) and throws `'Not found'` when
the id is absent; the Neon branch merges likewise but, on a missing id,
performs a no-op update and returns `undefined` (`none`) without raising any
error, instead of failing. -/
theorem updateQuote_spec (quotes : List Quote) (id : Nat) (p : QuotePatch)
    (q : Quote) :
    ((∀ r ∈ quotes, r.id ≠ id) →
      updateQuote quotes id p = .error "Not found") ∧
    ((∀ r ∈ quotes, r.id ≠ id) →
      updateQuoteNeon quotes id p = (quotes, none)) ∧
    applyPatch q {} = q ∧
    (p.title = none → (applyPatch q p).title = q.title) ∧
    (p.content = none → (applyPatch q p).content = q.content) ∧
    (p.author = none → (applyPatch q p).author = q.author) ∧
    (p.comment = none → (applyPatch q p).comment = q.comment) ∧
    (p.category = none → (applyPatch q p).category = q.category) ∧
    (p.is_pinned = none → (applyPatch q p).is_pinned = q.is_pinned) ∧
    (p.confidence = none → (applyPatch q p).confidence = q.confidence) ∧
    (p.last_accessed_at = none →
      (applyPatch q p).last_accessed_at = q.last_accessed_at) ∧
    (p.created_at = none → (applyPatch q p).created_at = q.created_at) ∧
    (∀ i r, (getLocalQuotes quotes "" "").findIdx? (fun s => s.id == id) = some i →
      (getLocalQuotes quotes "" "")[i]? = some r →
      updateQuote quotes id p =
        .ok ((getLocalQuotes quotes "" "").set i (applyPatch r p),
          applyPatch r p)) := by
  refine ⟨?_, ?_, rfl, fun h => by simp [applyPatch, h],
    fun h => by simp [applyPatch, h], fun h => by simp [applyPatch, h],
    fun h => by simp [applyPatch, h], fun h => by simp [applyPatch, h],
    fun h => by simp [applyPatch, h], fun h => by simp [applyPatch, h],
    fun h => by simp [applyPatch, h], fun h => by simp [applyPatch, h], ?_⟩
  · intro h
    have hn : (getLocalQuotes quotes "" "").findIdx? (fun r => r.id == id) = none :=
      findIdxOpt_none_of_no_id _ id
        (fun r hr => h r ((mem_getLocalQuotes quotes r).mp hr))
    simp only [updateQuote, hn]
  · intro h
    have hn : quotes.find? (fun r => r.id == id) = none :=
      List.find?_eq_none.mpr (fun r hr => by simp [h r hr])
    simp only [updateQuoteNeon, hn]
  · intro i r hidx hget
    simp only [updateQuote, hidx, hget]

/-- Witness for C8's theorem at a concrete input. -/
theorem updateQuote_spec_witness :
    updateQuote [] 1 {} = .error "Not found" :=
  (updateQuote_spec [] 1 {} boostQuote).1
    (fun r hr => absurd hr (List.not_mem_nil r))

/-- C8 counterexample: on a missing id the Neon `updateQuote` does not fail —
it leaves the table unchanged and returns no record; only the local branch
throws `'Not found'`, so the claimed NotFound failure on both backends is
false. -/
theorem updateQuote_notfound_counterexample :
    updateQuoteNeon [] 1 {} = ([], none) ∧
    updateQuote [] 1 {} = .error "Not found" := by
  constructor
  · rfl
  · simp only [updateQuote, getLocalQuotes_nil]
    rfl

lemma foldl_upsert_ids (iqs : List ImportQuote) :
    ∀ (init : List Quote) (r : Quote), r ∈ iqs.foldl importUpsertQuote init →
      (∃ r0 ∈ init, r.id = r0.id) ∨ ∃ iq ∈ iqs, r.id = iq.id := by
  induction iqs with
  | nil =>
    intro init r hr
    exact Or.inl ⟨r, hr, rfl⟩
  | cons iq iqs ih =>
    intro init r hr
    rcases ih (importUpsertQuote init iq) r hr with ⟨r0, h0, hid⟩ | ⟨j, hj, hid⟩
    · simp only [importUpsertQuote] at h0
      by_cases hany : init.any (fun s => s.id == iq.id) = true
      · rw [if_pos hany] at h0
        rcases List.mem_map.mp h0 with ⟨s, hs, hmap⟩
        by_cases hsid : (s.id == iq.id) = true
        · rw [if_pos hsid] at hmap
          subst hmap
          exact Or.inl ⟨s, hs, hid⟩
        · rw [if_neg hsid] at hmap
          subst hmap
          exact Or.inl ⟨s, hs, hid⟩
      · rw [if_neg hany] at h0
        rcases List.mem_append.mp h0 with hmem | hnew
        · exact Or.inl ⟨r0, hmem, hid⟩
        · rw [List.mem_singleton] at hnew
          subst hnew
          exact Or.inr ⟨iq, List.mem_cons_self iq iqs, hid⟩
    · exact Or.inr ⟨j, List.mem_cons_of_mem iq hj, hid⟩

/-- C6 (amended): import is a replace, not a merge — the Neon branch clears
both tables before upserting (its result is independent of the pre-existing
tables, and every resulting quote id comes from the snapshot), and the local
branch overwrites both stored collections with the snapshot verbatim; within
the snapshot the upsert is keyed by id, and a record with a fresh id is
inserted preserving the supplied id. -/
theorem importData_replace (st : LocalState) (qs : List Quote)
    (cs : List Category) (qtable : List Quote) (ctable : List Category)
    (iqs : List ImportQuote) (ics : List Category) :
    importData st { quotes := some qs, categories := some cs } =
      .ok { quotes := qs, categories := cs } ∧
    importDataNeon qtable ctable { quotes := some iqs, categories := some ics } =
      importDataNeon [] [] { quotes := some iqs, categories := some ics } ∧
    importDataNeon qtable ctable { quotes := some iqs, categories := some ics } =
      .ok (iqs.foldl importUpsertQuote [], ics.foldl importUpsertCategory []) ∧
    (∀ r ∈ iqs.foldl importUpsertQuote [], ∃ iq ∈ iqs, r.id = iq.id) ∧
    (∀ rows iq, (∀ r ∈ rows, r.id ≠ iq.id) →
      importUpsertQuote rows iq = rows ++ [importedRow iq]) ∧
    (∀ iq : ImportQuote, (importedRow iq).id = iq.id) := by
  refine ⟨rfl, rfl, rfl, ?_, ?_, fun iq => rfl⟩
  · intro r hr
    rcases foldl_upsert_ids iqs [] r hr with ⟨r0, h0, _⟩ | h
    · exact absurd h0 (List.not_mem_nil r0)
    · exact h
  · intro rows iq hno
    have hany : ¬ rows.any (fun s => s.id == iq.id) = true := by
      rw [Bool.not_eq_true, List.any_eq_false]
      intro s hs
      simp [hno s hs]
    simp only [importUpsertQuote]
    rw [if_neg hany]

/-- Pre-existing stored quote with id 1 used by the import counterexample. -/
def storedQuote1 : Quote :=
  { id := 1, title := "", content := "one", author := "", comment := "",
    category := "未分类", is_pinned := false, confidence := 7/10,
    last_accessed_at := 0, created_at := 0 }

/-- Snapshot quote with id 2 used by the import counterexample. -/
def snapshotQuote2 : ImportQuote :=
  { id := 2, title := "", content := "two", author := "", comment := "",
    category := "未分类", is_pinned := false, confidence := some (7/10),
    last_accessed_at := some 1, created_at := 1 }

/-- C6 counterexample: importing a snapshot that omits stored record 1 deletes
that record on both backends, so import is not a merge. -/
theorem import_merge_counterexample :
    importData { quotes := [storedQuote1], categories := [] }
        { quotes := some [], categories := some [] } =
      .ok { quotes := [], categories := [] } ∧
    importDataNeon [storedQuote1] []
        { quotes := some [snapshotQuote2], categories := some [] } =
      .ok ([importedRow snapshotQuote2], []) ∧
    storedQuote1.id ∉ List.map Quote.id [importedRow snapshotQuote2] := by
  refine ⟨rfl, rfl, ?_⟩
  decide

/-- Witness for C6's theorem at a concrete input: a snapshot record with a
fresh id is appended preserving the supplied id. -/
theorem importData_replace_witness :
    importUpsertQuote [] snapshotQuote2 = [importedRow snapshotQuote2] :=
  (importData_replace { quotes := [], categories := [] } [] [] [] [] []
    []).2.2.2.2.1 [] snapshotQuote2
    (fun r hr => absurd hr (List.not_mem_nil r))

/-- C10: on the Neon import path a quote record whose confidence field is
present but equal to 0 is stored with confidence 0.7 — the falsy-tolerant
default `q.confidence || 0.7` treats 0 like a missing field, erasing the
dormant state. -/
theorem import_zero_confidence (iq : ImportQuote) (rows : List Quote)
    (h : iq.confidence = some 0) :
    (importedRow iq).confidence = 7/10 ∧
    (∀ r ∈ importUpsertQuote rows iq, r.id = iq.id → r.confidence = 7/10) := by
  have hrow : (importedRow iq).confidence = 7/10 := by
    simp [importedRow, h]
  refine ⟨hrow, ?_⟩
  intro r hr hid
  simp only [importUpsertQuote] at hr
  by_cases hany : rows.any (fun s => s.id == iq.id) = true
  · rw [if_pos hany] at hr
    rcases List.mem_map.mp hr with ⟨s, hs, hmap⟩
    by_cases hsid : (s.id == iq.id) = true
    · rw [if_pos hsid] at hmap
      subst hmap
      exact hrow
    · rw [if_neg hsid] at hmap
      subst hmap
      exact absurd (beq_iff_eq.mpr hid) hsid
  · rw [if_neg hany] at hr
    rcases List.mem_append.mp hr with hmem | hnew
    · rw [Bool.not_eq_true, List.any_eq_false] at hany
      exact absurd (beq_iff_eq.mpr hid) (by simpa using hany r hmem)
    · rw [List.mem_singleton] at hnew
      subst hnew
      exact hrow

/-- Imported quote whose confidence is present but 0 (a dormant quote). -/
def zeroConfImport : ImportQuote :=
  { id := 9, title := "", content := "c", author := "", comment := "",
    category := "未分类", is_pinned := false, confidence := some 0,
    last_accessed_at := some 1, created_at := 1 }

/-- Witness for C10's theorem at a concrete input. -/
theorem import_zero_confidence_witness :
    (importedRow zeroConfImport).confidence = 7/10 :=
  (import_zero_confidence zeroConfImport [] rfl).1

/-- C7 counterexample: `deleteCategory` deletes the sentinel 未分类 itself on
both backends — nothing guards the sentinel category. -/
theorem sentinel_delete_counterexample :
    (deleteCategory { quotes := [], categories := [{ id := 4, name := "未分类" }] } 4).categories = [] ∧
    (deleteCategoryNeon [] [{ id := 4, name := "未分类" }] 4).2 = [] :=
  ⟨rfl, rfl⟩

/-- C7 (amended): `deleteCategory` has no sentinel protection — any category
found by id, the sentinel included, is removed, after every quote bearing its
name is reassigned to 未分类; consequently no quote of the resulting state
references the deleted name unless that name is 未分类 itself. -/
theorem deleteCategory_spec (st : LocalState) (qtable : List Quote)
    (ctable : List Category) (id : Nat) (cat cat2 : Category)
    (hfind : st.categories.find? (fun c => c.id == id) = some cat)
    (hfind2 : ctable.find? (fun c => c.id == id) = some cat2) :
    (deleteCategory st id).categories =
      st.categories.filter (fun c => c.id != id) ∧
    (∀ c ∈ (deleteCategory st id).categories, c.id ≠ id) ∧
    ((deleteCategory st id).quotes).Perm (st.quotes.map (fun q =>
      if q.category == cat.name then { q with category := "未分类" } else q)) ∧
    (∀ q ∈ (deleteCategory st id).quotes, q.category = cat.name →
      cat.name = "未分类") ∧
    (deleteCategoryNeon qtable ctable id).2 =
      ctable.filter (fun c => c.id != id) ∧
    (deleteCategoryNeon qtable ctable id).1 = qtable.map (fun q =>
      if q.category == cat2.name then { q with category := "未分类" } else q) ∧
    (∀ q ∈ (deleteCategoryNeon qtable ctable id).1, q.category = cat2.name →
      cat2.name = "未分类") := by
  have hdel : deleteCategory st id =
      { categories := st.categories.filter (fun c => c.id != id)
        quotes := (getLocalQuotes st.quotes "" "").map (fun q =>
          if q.category == cat.name then { q with category := "未分类" }
          else q) } := by
    simp only [deleteCategory, hfind]
  have hdelN : deleteCategoryNeon qtable ctable id =
      (qtable.map (fun q =>
        if q.category == cat2.name then { q with category := "未分类" }
        else q),
       ctable.filter (fun c => c.id != id)) := by
    simp only [deleteCategoryNeon, hfind2]
  have hreassign : ∀ (name : String) (l : List Quote) (q : Quote),
      q ∈ l.map (fun r =>
        if r.category == name then { r with category := "未分类" } else r) →
      q.category = name → name = "未分类" := by
    intro name l q hq hcat
    rcases List.mem_map.mp hq with ⟨r, _, hmap⟩
    by_cases hr : (r.category == name) = true
    · rw [if_pos hr] at hmap
      subst hmap
      exact hcat.symm
    · rw [if_neg hr] at hmap
      subst hmap
      exact absurd (beq_iff_eq.mpr hcat) hr
  refine ⟨by rw [hdel], ?_, ?_, ?_, by rw [hdelN], by rw [hdelN], ?_⟩
  · intro c hc
    rw [hdel] at hc
    exact bne_iff_ne.mp (List.mem_filter.mp hc).2
  · rw [hdel]
    exact (getLocalQuotes_perm st.quotes).map _
  · intro q hq
    rw [hdel] at hq
    exact hreassign cat.name _ q hq
  · intro q hq
    rw [hdelN] at hq
    exact hreassign cat2.name _ q hq

/-- Concrete state for the C7 witness: one deletable category 随笔. -/
def deleteCatState : LocalState :=
  { quotes := [], categories := [{ id := 7, name := "随笔" }] }

/-- Witness for C7's theorem at a concrete input. -/
theorem deleteCategory_spec_witness :
    (deleteCategory deleteCatState 7).categories =
      deleteCatState.categories.filter (fun c => c.id != 7) :=
  (deleteCategory_spec deleteCatState [] [{ id := 7, name := "随笔" }] 7
    { id := 7, name := "随笔" } { id := 7, name := "随笔" } rfl rfl).1

/-- C9 counterexample: the local `addCategory` accepts a duplicate name — the
resulting state holds two categories named 读书心得 — and accepts the empty
name. -/
theorem addCategory_counterexample :
    (addCategory { quotes := [], categories := [{ id := 1, name := "读书心得" }] } 2 "读书心得").1.categories =
      [{ id := 1, name := "读书心得" }, { id := 2, name := "读书心得" }] ∧
    (addCategory { quotes := [], categories := [] } 3 "").1.categories =
      [{ id := 3, name := "" }] :=
  ⟨rfl, rfl⟩

/-- C9 (amended): the local `addCategory` inserts unconditionally — it has no
emptiness or uniqueness check, so duplicate and empty names are stored; the
Neon branch rejects a duplicate name through the schema's UNIQUE constraint,
and neither backend rejects the empty name. -/
theorem addCategory_spec (st : LocalState) (newId : Nat) (name : String)
    (table : List Category) :
    (addCategory st newId name).1.categories =
      st.categories ++ [{ id := newId, name := name }] ∧
    (addCategory st newId name).2 = { id := newId, name := name } ∧
    ((∃ c ∈ table, c.name = name) →
      addCategoryNeon table newId name =
        .error "duplicate key value violates unique constraint") ∧
    ((∀ c ∈ table, c.name ≠ name) →
      addCategoryNeon table newId name =
        .ok (table ++ [{ id := newId, name := name }],
          { id := newId, name := name })) := by
  refine ⟨rfl, rfl, ?_, ?_⟩
  · rintro ⟨c, hc, hname⟩
    have hany : table.any (fun c2 => c2.name == name) = true :=
      List.any_eq_true.mpr ⟨c, hc, beq_iff_eq.mpr hname⟩
    simp only [addCategoryNeon]
    rw [if_pos hany]
  · intro hno
    have hany : ¬ table.any (fun c2 => c2.name == name) = true := by
      rw [Bool.not_eq_true, List.any_eq_false]
      intro c hc
      simp [hno c hc]
    simp only [addCategoryNeon]
    rw [if_neg hany]

/-- Witness for C9's theorem at a concrete input. -/
theorem addCategory_spec_witness :
    addCategoryNeon [{ id := 1, name := "读书心得" }] 2 "读书心得" =
      .error "duplicate key value violates unique constraint" :=
  (addCategory_spec { quotes := [], categories := [] } 2 "读书心得"
    [{ id := 1, name := "读书心得" }]).2.2.1
    ⟨{ id := 1, name := "读书心得" }, List.mem_singleton.mpr rfl, rfl⟩

end Storage
